import Mathlib

/-!
# The descriptor table of the stub `FileSystem` (code/filesys/filesys.h)

A shallow embedding of the `FILESYS_STUB` class `FileSystem` of
`code/filesys/filesys.h`, lines 43-121, and theorems about its descriptor table.

Modelling decisions

* `int` values are `Int`.  The code only compares and stores them, it never does
  arithmetic on them, so no wrap-around can occur; every 32-bit `int` is an `Int`.
* `OpenFile* fileDescriptorTable[20]` is a function from `Fin 20` to
  `Option OpenFile`: `none` is `NULL`, `some h` is a pointer to the live object `h`.
* `fileDescriptorTable[i]` with `i` outside `0..19` is undefined behaviour in C++
  (there is no bounds check in the source).  The embedding makes it explicit: every
  table access goes through `FileSystem.load` / `FileSystem.store`, which answer
  `Except.error (Fault.outOfBounds i)` for such an `i`.
* The functions of `sysdep.h` and the methods of `OpenFile` (`openfile.h`) are not
  part of `filesys.h`.  Their answers are taken as parameters (`Env`), and every
  call the code makes to them is recorded, in order, in the `calls` of the result.
-/

set_option linter.unusedVariables false

namespace Filesys

/-- A `char*` argument is modelled by the text it points to. -/
abbrev CharPtr := String

/-- The object built by `new OpenFile(fd)`; `openfile.h` is not in the sources, so
only the constructor argument is kept. -/
structure OpenFile where
  file : Int
deriving DecidableEq, Repr

/-- What the code asks of the code outside `filesys.h`, in program order.
`GlobalClose fd` is the qualified call `::Close(fd)` to the function of `sysdep.h`,
`Cerr text` the output statement of line 80, `NewOpenFile` and `DeleteOpenFile` the
`new` and `delete` expressions, `OpenFileWrite` and `OpenFileRead` the calls of the
methods `Write` and `Read` of a handle. -/
inductive Call where
  | OpenForWrite (name : CharPtr)
  | OpenForReadWrite (name : CharPtr) (crashOnError : Bool)
  | Unlink (name : CharPtr)
  | GlobalClose (fd : Int)
  | Cerr (text : String)
  | NewOpenFile (fd : Int)
  | DeleteOpenFile (h : OpenFile)
  | OpenFileWrite (h : OpenFile) (buffer : CharPtr) (size : Int)
  | OpenFileRead (h : OpenFile) (buffer : CharPtr) (size : Int)
deriving DecidableEq, Repr

/-- The answers of the functions declared in `sysdep.h` and of the methods of
`OpenFile`, none of which is defined in `filesys.h`. -/
structure Env where
  OpenForWrite : CharPtr → Int
  OpenForReadWrite : CharPtr → Bool → Int
  Unlink : CharPtr → Int
  OpenFileWrite : OpenFile → CharPtr → Int → Int
  OpenFileRead : OpenFile → CharPtr → Int → Int

/-- Undefined behaviour made explicit: an array access outside `0..19`. -/
inductive Fault where
  | outOfBounds (index : Int)
deriving DecidableEq, Repr

/-- The data member of the class: `OpenFile* fileDescriptorTable[20]`. -/
structure FileSystem where
  fileDescriptorTable : Fin 20 → Option OpenFile

/-- The outcome of a member function that returned: its return value, the object
afterwards, and the outside calls it made. -/
structure Ret (α : Type) where
  ret : α
  fs : FileSystem
  calls : List Call

/-- The array element an `int` index designates, if there is one. -/
def slot (i : Int) : Option (Fin 20) :=
  if h : 0 ≤ i ∧ i < 20 then some ⟨i.toNat, by omega⟩ else none

namespace FileSystem

/-- Reading `fileDescriptorTable[i]`. -/
def load (fs : FileSystem) (i : Int) : Except Fault (Option OpenFile) :=
  match slot i with
  | some s => .ok (fs.fileDescriptorTable s)
  | none => .error (.outOfBounds i)

/-- The assignment `fileDescriptorTable[i] = p`. -/
def store (fs : FileSystem) (i : Int) (p : Option OpenFile) : Except Fault FileSystem :=
  match slot i with
  | some s => .ok ⟨Function.update fs.fileDescriptorTable s p⟩
  | none => .error (.outOfBounds i)

/-- The constructor `FileSystem()` (lines 45-49): every entry is set to `NULL`. -/
def new : FileSystem := ⟨fun _ => none⟩

/-- The member `int Close(int fileid)` (lines 105-113). -/
def Close (fs : FileSystem) (fileid : Int) : Except Fault (Ret Int) :=
  match fs.load fileid with
  | .error f => .error f
  | .ok none => .ok ⟨0, fs, []⟩
  | .ok (some h) =>
    match fs.store fileid none with
    | .error f => .error f
    | .ok fs1 => .ok ⟨1, fs1, [.DeleteOpenFile h]⟩

/-- The member `bool Create(char* name)` (lines 51-60).  The unqualified call
`Close(fileDescriptor)` sits inside the class, where name lookup finds the member
`FileSystem::Close(int)` before the `Close` of `sysdep.h`; the source writes
`::Close` where it means the latter (line 81). -/
def Create (env : Env) (fs : FileSystem) (name : CharPtr) : Except Fault (Ret Bool) :=
  let fileDescriptor := env.OpenForWrite name
  if fileDescriptor = -1 then
    .ok ⟨false, fs, [.OpenForWrite name]⟩
  else
    match fs.Close fileDescriptor with
    | .error f => .error f
    | .ok r => .ok ⟨true, r.fs, .OpenForWrite name :: r.calls⟩

/-- The member `OpenFile* Open(char* name)` (lines 62-70). -/
def OpenPtr (env : Env) (fs : FileSystem) (name : CharPtr) :
    Except Fault (Ret (Option OpenFile)) :=
  let fileDescriptor := env.OpenForReadWrite name false
  if fileDescriptor = -1 then
    .ok ⟨none, fs, [.OpenForReadWrite name false]⟩
  else
    .ok ⟨some ⟨fileDescriptor⟩, fs,
      [.OpenForReadWrite name false, .NewOpenFile fileDescriptor]⟩

/-- The member `int Open(char* name, int unused)` (lines 72-87). -/
def Open (env : Env) (fs : FileSystem) (name : CharPtr) (unused : Int) :
    Except Fault (Ret Int) :=
  let fileid := env.OpenForReadWrite name false
  if fileid = -1 then
    .ok ⟨-1, fs, [.OpenForReadWrite name false]⟩
  else if fileid ≥ 20 then
    .ok ⟨-1, fs, [.OpenForReadWrite name false, .Cerr "fd >= 20!!!", .GlobalClose fileid]⟩
  else
    match fs.store fileid (some ⟨fileid⟩) with
    | .error f => .error f
    | .ok fs1 => .ok ⟨fileid, fs1, [.OpenForReadWrite name false, .NewOpenFile fileid]⟩

/-- The member `int Write(char* buffer, int size, int fileid)` (lines 89-95). -/
def Write (env : Env) (fs : FileSystem) (buffer : CharPtr) (size fileid : Int) :
    Except Fault (Ret Int) :=
  match fs.load fileid with
  | .error f => .error f
  | .ok none => .ok ⟨-1, fs, []⟩
  | .ok (some h) => .ok ⟨env.OpenFileWrite h buffer size, fs, [.OpenFileWrite h buffer size]⟩

/-- The member `int Read(char* buffer, int size, int fileid)` (lines 97-103). -/
def Read (env : Env) (fs : FileSystem) (buffer : CharPtr) (size fileid : Int) :
    Except Fault (Ret Int) :=
  match fs.load fileid with
  | .error f => .error f
  | .ok none => .ok ⟨-1, fs, []⟩
  | .ok (some h) => .ok ⟨env.OpenFileRead h buffer size, fs, [.OpenFileRead h buffer size]⟩

/-- The member `bool Remove(char* name)` (lines 115-117). -/
def Remove (env : Env) (fs : FileSystem) (name : CharPtr) : Except Fault (Ret Bool) :=
  .ok ⟨decide (env.Unlink name = 0), fs, [.Unlink name]⟩

end FileSystem


/-! ## Sequences of calls -/

/-- A call of one of the public member functions, with its arguments. -/
inductive Op where
  | Create (name : CharPtr)
  | OpenPtr (name : CharPtr)
  | Open (name : CharPtr) (unused : Int)
  | Write (buffer : CharPtr) (size fileid : Int)
  | Read (buffer : CharPtr) (size fileid : Int)
  | Close (fileid : Int)
  | Remove (name : CharPtr)
deriving DecidableEq, Repr

/-- The value a member function hands back: `bool`, `int` or `OpenFile*`. -/
inductive Val where
  | bool (b : Bool)
  | int (n : Int)
  | ptr (p : Option OpenFile)
deriving DecidableEq, Repr

/-- Dispatch of a call to the member function it names. -/
def FileSystem.call (env : Env) (fs : FileSystem) : Op → Except Fault (Ret Val)
  | .Create name =>
    match fs.Create env name with
    | .error f => .error f
    | .ok r => .ok ⟨.bool r.ret, r.fs, r.calls⟩
  | .OpenPtr name =>
    match fs.OpenPtr env name with
    | .error f => .error f
    | .ok r => .ok ⟨.ptr r.ret, r.fs, r.calls⟩
  | .Open name unused =>
    match fs.Open env name unused with
    | .error f => .error f
    | .ok r => .ok ⟨.int r.ret, r.fs, r.calls⟩
  | .Write buffer size fileid =>
    match fs.Write env buffer size fileid with
    | .error f => .error f
    | .ok r => .ok ⟨.int r.ret, r.fs, r.calls⟩
  | .Read buffer size fileid =>
    match fs.Read env buffer size fileid with
    | .error f => .error f
    | .ok r => .ok ⟨.int r.ret, r.fs, r.calls⟩
  | .Close fileid =>
    match fs.Close fileid with
    | .error f => .error f
    | .ok r => .ok ⟨.int r.ret, r.fs, r.calls⟩
  | .Remove name =>
    match fs.Remove env name with
    | .error f => .error f
    | .ok r => .ok ⟨.bool r.ret, r.fs, r.calls⟩

/-- The ids a caller holds after a call, judged by the calls and their return values
alone: an id is taken up when `Open(name, _)` returns it and given back when
`Close` on it returns `1`. -/
def assignedAfter (ids : List Int) (op : Op) (ret : Val) : List Int :=
  match op, ret with
  | .Open _ _, .int id => if 0 ≤ id then id :: ids else ids
  | .Close fileid, .int b => if b = 1 then ids.filter (fun i => i ≠ fileid) else ids
  | _, _ => ids

/-- One call of a run: the ids assigned and the object before it, the answers of the
outside world during it, and how it ended. -/
structure Event where
  assigned : List Int
  before : FileSystem
  env : Env
  op : Op
  result : Except Fault (Ret Val)

/-- Executes the calls one after the other; the run ends with the first call that
hits undefined behaviour. -/
def runFrom (ids : List Int) (fs : FileSystem) : List (Env × Op) → List Event
  | [] => []
  | (env, op) :: rest =>
    match fs.call env op with
    | .error f => [⟨ids, fs, env, op, .error f⟩]
    | .ok r => ⟨ids, fs, env, op, .ok r⟩ :: runFrom (assignedAfter ids op r.ret) r.fs rest

/-- A run on a freshly constructed object. -/
def run (calls : List (Env × Op)) : List Event :=
  runFrom [] FileSystem.new calls

/-! ## Vocabulary of the statements -/

/-- Every one of the 20 slots holds a live handle. -/
def FileSystem.Full (fs : FileSystem) : Prop :=
  ∀ s : Fin 20, fs.fileDescriptorTable s ≠ none

/-- The number of slots that hold a live handle. -/
def FileSystem.liveCount (fs : FileSystem) : Nat :=
  (Finset.univ.filter (fun s : Fin 20 => fs.fileDescriptorTable s ≠ none)).card

/-- The smallest index in `0..19` whose slot is empty, as the specification words the
allocation ("allocates the first free slot `0..19`"). -/
def specFirstFreeSlot (fs : FileSystem) : Option (Fin 20) :=
  (List.finRange 20).find? (fun s => (fs.fileDescriptorTable s).isNone)

/-- The host answer `fd` respects the table: it is `-1`, or a non-negative descriptor
that is not the index of a live slot. -/
def hostFresh (fs : FileSystem) (fd : Int) : Bool :=
  fd == -1 ||
    (decide (0 ≤ fd) &&
      match slot fd with
      | some s => (fs.fileDescriptorTable s).isNone
      | none => true)

/-- The event is an `Open(name, _)` call whose host answer respects the table. -/
def Event.freshOpen (e : Event) : Bool :=
  match e.op with
  | .Open name _ => hostFresh e.before (e.env.OpenForReadWrite name false)
  | _ => false

/-- The event returned an id, that is an `int` that is not negative. -/
def Event.returnedId (e : Event) : Bool :=
  match e.result with
  | .ok r =>
    match r.ret with
    | .int id => decide (0 ≤ id)
    | _ => false
  | .error _ => false

/-- The event is an `Open(name, _)` call to which the host answers with an id that
is still assigned. -/
def Event.reissues (e : Event) : Bool :=
  match e.op with
  | .Open name _ => decide (e.env.OpenForReadWrite name false ∈ e.assigned)
  | _ => false

/-- A table whose only live entry is slot `3`, holding the handle of descriptor `3`. -/
def onlyThree : FileSystem := ⟨Function.update (fun _ => none) 3 (some ⟨3⟩)⟩

/-- A table in which slot `i` holds the handle of descriptor `i`, for every `i`. -/
def allLive : FileSystem := ⟨fun s => some ⟨s.val⟩⟩

/-- An environment whose host opens answer `fd` and whose handles move `n` bytes. -/
def answering (fd n : Int) : Env :=
  ⟨fun _ => fd, fun _ _ => fd, fun _ => 0, fun _ _ _ => n, fun _ _ _ => n⟩

/-- Twenty-one `Open` calls in a row, answered by the host with `0, 1, ..., 20`. -/
def twentyOneOpens : List (Env × Op) :=
  (List.range 21).map (fun i => (answering i 0, Op.Open "f" 0))

/-- `Open`, `Close`, `Open` on the same descriptor. -/
def openCloseOpen : List (Env × Op) :=
  [(answering 3 0, .Open "a" 0), (answering 3 0, .Close 3), (answering 3 0, .Open "b" 0)]

/-- `Open` answered with descriptor `3`, then `Create` answered with descriptor `3`. -/
def openThenCreate : List (Env × Op) :=
  [(answering 3 0, .Open "a" 0), (answering 3 0, .Create "b")]

theorem slot_of_mem {i : Int} (h : 0 ≤ i ∧ i < 20) :
    ∃ s : Fin 20, slot i = some s ∧ (s.val : Int) = i := by
  refine ⟨⟨i.toNat, by omega⟩, ?_, ?_⟩
  · simp [slot, h]
  · simp only
    omega

theorem slot_of_not_mem {i : Int} (h : ¬ (0 ≤ i ∧ i < 20)) : slot i = none := by
  simp [slot, h]

theorem slot_val {i : Int} {s : Fin 20} (h : slot i = some s) : (s.val : Int) = i := by
  unfold slot at h
  split at h
  · rename_i hi
    cases h
    simp only
    omega
  · cases h

/-! ### `Close`, `Read` and `Write` on ids in `0..19` -/

/-- C1: for every table and every `fileid` in `0..19`, `Close(fileid)` on an empty slot
returns `0`, makes no outside call and leaves the table as it was; on a live slot it
returns `1`, deletes the handle of that slot, empties the slot and leaves every
other slot as it was. -/
theorem Close_contract (fs : FileSystem) (fileid : Int) (hid : 0 ≤ fileid ∧ fileid < 20) :
    ∃ s : Fin 20, (s.val : Int) = fileid ∧
      (fs.fileDescriptorTable s = none → fs.Close fileid = .ok ⟨0, fs, []⟩) ∧
      (∀ h, fs.fileDescriptorTable s = some h →
        ∃ r, fs.Close fileid = .ok r ∧ r.ret = 1 ∧ r.calls = [.DeleteOpenFile h] ∧
          r.fs.fileDescriptorTable s = none ∧
          ∀ t, t ≠ s → r.fs.fileDescriptorTable t = fs.fileDescriptorTable t) := by
  obtain ⟨s, hs, hv⟩ := slot_of_mem hid
  refine ⟨s, hv, ?_, ?_⟩
  · intro hnone
    simp [FileSystem.Close, FileSystem.load, hs, hnone]
  · intro h hsome
    refine ⟨⟨1, ⟨Function.update fs.fileDescriptorTable s none⟩, [.DeleteOpenFile h]⟩,
      ?_, rfl, rfl, ?_, ?_⟩
    · simp [FileSystem.Close, FileSystem.load, FileSystem.store, hs, hsome]
    · simp
    · intro t ht
      simp [Function.update_noteq ht]

/-- C1 at slot `3` of the table whose only live entry is slot `3`. -/
theorem Close_contract_witness :
    ((0 : Int) ≤ 3 ∧ (3 : Int) < 20) ∧
    ∃ s : Fin 20, (s.val : Int) = 3 ∧
      (onlyThree.fileDescriptorTable s = none → onlyThree.Close 3 = .ok ⟨0, onlyThree, []⟩) ∧
      (∀ h, onlyThree.fileDescriptorTable s = some h →
        ∃ r, onlyThree.Close 3 = .ok r ∧ r.ret = 1 ∧ r.calls = [.DeleteOpenFile h] ∧
          r.fs.fileDescriptorTable s = none ∧
          ∀ t, t ≠ s → r.fs.fileDescriptorTable t = onlyThree.fileDescriptorTable t) :=
  ⟨⟨by decide, by decide⟩, Close_contract onlyThree 3 ⟨by decide, by decide⟩⟩

/-- C2: for every table and every `fileid` in `0..19`, `Read` and `Write` on an empty
slot return `-1` without calling the handle layer; on a live slot they call that
slot's handle once, with the same buffer and size, and return its byte count.  The
table is the same afterwards in every case. -/
theorem Read_Write_contract (env : Env) (fs : FileSystem) (buffer : CharPtr)
    (size fileid : Int) (hid : 0 ≤ fileid ∧ fileid < 20) :
    ∃ s : Fin 20, (s.val : Int) = fileid ∧
      (fs.fileDescriptorTable s = none →
        fs.Read env buffer size fileid = .ok ⟨-1, fs, []⟩ ∧
        fs.Write env buffer size fileid = .ok ⟨-1, fs, []⟩) ∧
      (∀ h, fs.fileDescriptorTable s = some h →
        fs.Read env buffer size fileid =
          .ok ⟨env.OpenFileRead h buffer size, fs, [.OpenFileRead h buffer size]⟩ ∧
        fs.Write env buffer size fileid =
          .ok ⟨env.OpenFileWrite h buffer size, fs, [.OpenFileWrite h buffer size]⟩) := by
  obtain ⟨s, hs, hv⟩ := slot_of_mem hid
  refine ⟨s, hv, ?_, ?_⟩
  · intro hnone
    simp [FileSystem.Read, FileSystem.Write, FileSystem.load, hs, hnone]
  · intro h hsome
    simp [FileSystem.Read, FileSystem.Write, FileSystem.load, hs, hsome]

/-- C2 at slot `3` of the table whose only live entry is slot `3`. -/
theorem Read_Write_contract_witness :
    ((0 : Int) ≤ 3 ∧ (3 : Int) < 20) ∧
    ∃ s : Fin 20, (s.val : Int) = 3 ∧
      (onlyThree.fileDescriptorTable s = none →
        onlyThree.Read (answering 3 7) "buf" 7 3 = .ok ⟨-1, onlyThree, []⟩ ∧
        onlyThree.Write (answering 3 7) "buf" 7 3 = .ok ⟨-1, onlyThree, []⟩) ∧
      (∀ h, onlyThree.fileDescriptorTable s = some h →
        onlyThree.Read (answering 3 7) "buf" 7 3 =
          .ok ⟨(answering 3 7).OpenFileRead h "buf" 7, onlyThree, [.OpenFileRead h "buf" 7]⟩ ∧
        onlyThree.Write (answering 3 7) "buf" 7 3 =
          .ok ⟨(answering 3 7).OpenFileWrite h "buf" 7, onlyThree,
            [.OpenFileWrite h "buf" 7]⟩) :=
  ⟨⟨by decide, by decide⟩,
    Read_Write_contract (answering 3 7) onlyThree "buf" 7 3 ⟨by decide, by decide⟩⟩

/-! ### `Open(name, _)` -/

theorem Open_of_failed (env : Env) (fs : FileSystem) (name : CharPtr) (unused : Int)
    (h : env.OpenForReadWrite name false = -1) :
    fs.Open env name unused = .ok ⟨-1, fs, [.OpenForReadWrite name false]⟩ := by
  simp [FileSystem.Open, h]

theorem Open_of_large (env : Env) (fs : FileSystem) (name : CharPtr) (unused : Int)
    (h : 20 ≤ env.OpenForReadWrite name false) :
    fs.Open env name unused =
      .ok ⟨-1, fs, [.OpenForReadWrite name false, .Cerr "fd >= 20!!!",
        .GlobalClose (env.OpenForReadWrite name false)]⟩ := by
  have h1 : env.OpenForReadWrite name false ≠ -1 := by omega
  simp [FileSystem.Open, h, h1]

theorem Open_of_small (env : Env) (fs : FileSystem) (name : CharPtr) (unused : Int)
    (h : 0 ≤ env.OpenForReadWrite name false ∧ env.OpenForReadWrite name false < 20) :
    ∃ s : Fin 20, slot (env.OpenForReadWrite name false) = some s ∧
      (s.val : Int) = env.OpenForReadWrite name false ∧
      fs.Open env name unused =
        .ok ⟨env.OpenForReadWrite name false,
          ⟨Function.update fs.fileDescriptorTable s (some ⟨env.OpenForReadWrite name false⟩)⟩,
          [.OpenForReadWrite name false, .NewOpenFile (env.OpenForReadWrite name false)]⟩ := by
  obtain ⟨s, hs, hv⟩ := slot_of_mem h
  have h1 : env.OpenForReadWrite name false ≠ -1 := by omega
  have h2 : ¬ 20 ≤ env.OpenForReadWrite name false := by omega
  exact ⟨s, hs, hv, by simp [FileSystem.Open, FileSystem.store, h1, h2, hs]⟩

/-- C5: for every table and every host answer that is `-1` or a non-negative
descriptor, `Open(name, _)` returns, and its value is `-1` or an id in `0..19`.  It
is `-1` exactly when the host open failed or the descriptor is `20` or more, and then
the table is as before; when it is an id, that slot holds a live handle afterwards
and every other slot is as before. -/
theorem Open_result (env : Env) (fs : FileSystem) (name : CharPtr) (unused : Int)
    (hhost : env.OpenForReadWrite name false = -1 ∨ 0 ≤ env.OpenForReadWrite name false) :
    ∃ r, fs.Open env name unused = .ok r ∧
      (r.ret = -1 ∨ (0 ≤ r.ret ∧ r.ret ≤ 19)) ∧
      (r.ret = -1 ↔
        (env.OpenForReadWrite name false = -1 ∨ 20 ≤ env.OpenForReadWrite name false)) ∧
      (r.ret = -1 → r.fs = fs) ∧
      (0 ≤ r.ret → ∃ s : Fin 20, (s.val : Int) = r.ret ∧
        r.fs.fileDescriptorTable s ≠ none ∧
        ∀ t, t ≠ s → r.fs.fileDescriptorTable t = fs.fileDescriptorTable t) := by
  by_cases h1 : env.OpenForReadWrite name false = -1
  · refine ⟨_, Open_of_failed env fs name unused h1, ?_, ?_, ?_, ?_⟩
    · exact Or.inl rfl
    · simp [h1]
    · intro _; rfl
    · intro h; simp at h
  · by_cases h2 : 20 ≤ env.OpenForReadWrite name false
    · refine ⟨_, Open_of_large env fs name unused h2, ?_, ?_, ?_, ?_⟩
      · exact Or.inl rfl
      · simp [h2]
      · intro _; rfl
      · intro h; simp at h
    · have h3 : 0 ≤ env.OpenForReadWrite name false ∧ env.OpenForReadWrite name false < 20 := by
        omega
      obtain ⟨s, _, hv, hopen⟩ := Open_of_small env fs name unused h3
      refine ⟨_, hopen, ?_, ?_, ?_, ?_⟩
      · right
        simp only
        omega
      · simp only
        omega
      · simp only
        intro h
        omega
      · intro _
        refine ⟨s, hv, ?_, ?_⟩
        · simp
        · intro t ht
          simp [Function.update_noteq ht]

/-- C5 on a freshly constructed table with host descriptor `3`. -/
theorem Open_result_witness :
    ((answering 3 0).OpenForReadWrite "a" false = -1 ∨
      0 ≤ (answering 3 0).OpenForReadWrite "a" false) ∧
    ∃ r, FileSystem.new.Open (answering 3 0) "a" 0 = .ok r ∧
      (r.ret = -1 ∨ (0 ≤ r.ret ∧ r.ret ≤ 19)) ∧
      (r.ret = -1 ↔
        ((answering 3 0).OpenForReadWrite "a" false = -1 ∨
          20 ≤ (answering 3 0).OpenForReadWrite "a" false)) ∧
      (r.ret = -1 → r.fs = FileSystem.new) ∧
      (0 ≤ r.ret → ∃ s : Fin 20, (s.val : Int) = r.ret ∧
        r.fs.fileDescriptorTable s ≠ none ∧
        ∀ t, t ≠ s → r.fs.fileDescriptorTable t = FileSystem.new.fileDescriptorTable t) :=
  ⟨Or.inr (by decide), Open_result (answering 3 0) FileSystem.new "a" 0 (Or.inr (by decide))⟩

/-- C4, as the claim states it, fails: on a freshly constructed table the smallest
empty index is `0`, the host open succeeds with descriptor `3`, and `Open` neither
returns `0` nor stores a handle in slot `0`: it returns `3` and fills slot `3`. -/
theorem Open_first_free_counterexample :
    (answering 3 0).OpenForReadWrite "a" false ≠ -1 ∧
    specFirstFreeSlot FileSystem.new = some 0 ∧
    (¬ ∃ r i, FileSystem.new.Open (answering 3 0) "a" 0 = .ok r ∧
        specFirstFreeSlot FileSystem.new = some i ∧ r.ret = (i.val : Int) ∧
        r.fs.fileDescriptorTable i ≠ none) ∧
    ∃ r, FileSystem.new.Open (answering 3 0) "a" 0 = .ok r ∧ r.ret = 3 ∧
      r.fs.fileDescriptorTable 0 = none ∧ r.fs.fileDescriptorTable 3 = some ⟨3⟩ := by
  refine ⟨by decide, by decide, ?_, ⟨_, rfl, rfl, rfl, rfl⟩⟩
  rintro ⟨r, i, hr, hi, hret, _⟩
  have h0 : specFirstFreeSlot FileSystem.new = some 0 := by decide
  rw [h0] at hi
  cases hi
  have hopen : FileSystem.new.Open (answering 3 0) "a" 0 =
      .ok ⟨3, ⟨Function.update FileSystem.new.fileDescriptorTable 3 (some ⟨3⟩)⟩,
        [.OpenForReadWrite "a" false, .NewOpenFile 3]⟩ := rfl
  rw [hopen] at hr
  cases hr
  simp at hret

/-- C4, amended: the id is the host's descriptor, not the smallest empty index.  When
the host open succeeds with a descriptor `fd` in `0..19`, `Open` returns `fd` and
stores the new handle, built from `fd`, in slot `fd`, leaving every other slot as it
was, whichever slots are empty.  When the descriptor is `20` or more `Open` returns `-1` and stores nothing, empty
slots or not. -/
theorem Open_returns_host_descriptor (env : Env) (fs : FileSystem) (name : CharPtr)
    (unused : Int) (hok : 0 ≤ env.OpenForReadWrite name false) :
    ∃ r, fs.Open env name unused = .ok r ∧
      (env.OpenForReadWrite name false < 20 →
        r.ret = env.OpenForReadWrite name false ∧
        ∃ s : Fin 20, (s.val : Int) = env.OpenForReadWrite name false ∧
          r.fs.fileDescriptorTable s = some ⟨env.OpenForReadWrite name false⟩ ∧
          ∀ t, t ≠ s → r.fs.fileDescriptorTable t = fs.fileDescriptorTable t) ∧
      (20 ≤ env.OpenForReadWrite name false → r.ret = -1 ∧ r.fs = fs) := by
  by_cases h2 : 20 ≤ env.OpenForReadWrite name false
  · refine ⟨_, Open_of_large env fs name unused h2, ?_, ?_⟩
    · intro h
      omega
    · intro _
      exact ⟨rfl, rfl⟩
  · obtain ⟨s, _, hv, hopen⟩ := Open_of_small env fs name unused ⟨hok, by omega⟩
    refine ⟨_, hopen, ?_, ?_⟩
    · intro _
      refine ⟨rfl, s, hv, ?_, ?_⟩
      · simp
      · intro t ht
        simp [Function.update_noteq ht]
    · intro h
      exact absurd h h2

/-- C4, amended, on a freshly constructed table with host descriptor `3`. -/
theorem Open_returns_host_descriptor_witness :
    0 ≤ (answering 3 0).OpenForReadWrite "a" false ∧
    ∃ r, FileSystem.new.Open (answering 3 0) "a" 0 = .ok r ∧
      ((answering 3 0).OpenForReadWrite "a" false < 20 →
        r.ret = (answering 3 0).OpenForReadWrite "a" false ∧
        ∃ s : Fin 20, (s.val : Int) = (answering 3 0).OpenForReadWrite "a" false ∧
          r.fs.fileDescriptorTable s = some ⟨(answering 3 0).OpenForReadWrite "a" false⟩ ∧
          ∀ t, t ≠ s → r.fs.fileDescriptorTable t = FileSystem.new.fileDescriptorTable t) ∧
      (20 ≤ (answering 3 0).OpenForReadWrite "a" false → r.ret = -1 ∧ r.fs = FileSystem.new) :=
  ⟨by decide, Open_returns_host_descriptor (answering 3 0) FileSystem.new "a" 0 (by decide)⟩

/-! ### Ids outside `0..19` -/

theorem load_of_not_mem (fs : FileSystem) {i : Int} (h : ¬ (0 ≤ i ∧ i < 20)) :
    fs.load i = .error (.outOfBounds i) := by
  simp [FileSystem.load, slot_of_not_mem h]

/-- C7, the code at the failing inputs: with `fileid` `20` or `-1` (the value `Open`
returns on failure) `Read`, `Write` and `Close` do not return `-1` or `0`.  Each
evaluates `fileDescriptorTable[fileid]` without a bounds check, which is an access
outside the 20 entries of the array, on every table. -/
theorem out_of_range_id_reaches_table (env : Env) (fs : FileSystem) (buffer : CharPtr)
    (size : Int) :
    fs.Read env buffer size 20 = .error (.outOfBounds 20) ∧
    fs.Write env buffer size 20 = .error (.outOfBounds 20) ∧
    fs.Close 20 = .error (.outOfBounds 20) ∧
    fs.Read env buffer size (-1) = .error (.outOfBounds (-1)) ∧
    fs.Write env buffer size (-1) = .error (.outOfBounds (-1)) ∧
    fs.Close (-1) = .error (.outOfBounds (-1)) := by
  have h20 : fs.load 20 = .error (.outOfBounds 20) := load_of_not_mem fs (by decide)
  have hneg : fs.load (-1) = .error (.outOfBounds (-1)) := load_of_not_mem fs (by decide)
  simp [FileSystem.Read, FileSystem.Write, FileSystem.Close, h20, hneg]

/-! ### `Create` -/

/-- What `Create` does, by the host descriptor `fd`.  With `fd = -1` it returns `FALSE`
and touches nothing.  With `fd` in `0..19` it returns `TRUE`; slot `fd` is empty
afterwards and every other slot is as before; the only outside call besides the host
open is the deletion of the handle that slot `fd` held, if it held one.  With any
other `fd` it indexes the table out of bounds. -/
theorem Create_cases (env : Env) (fs : FileSystem) (name : CharPtr) :
    (env.OpenForWrite name = -1 →
      fs.Create env name = .ok ⟨false, fs, [.OpenForWrite name]⟩) ∧
    (∀ s : Fin 20, (s.val : Int) = env.OpenForWrite name →
      ∃ r, fs.Create env name = .ok r ∧ r.ret = true ∧
        r.fs.fileDescriptorTable s = none ∧
        (∀ t, t ≠ s → r.fs.fileDescriptorTable t = fs.fileDescriptorTable t) ∧
        r.calls = .OpenForWrite name ::
          (match fs.fileDescriptorTable s with
            | none => []
            | some h => [.DeleteOpenFile h])) ∧
    (env.OpenForWrite name ≠ -1 →
      ¬ (0 ≤ env.OpenForWrite name ∧ env.OpenForWrite name < 20) →
      fs.Create env name = .error (.outOfBounds (env.OpenForWrite name))) := by
  refine ⟨?_, ?_, ?_⟩
  · intro h
    simp [FileSystem.Create, h]
  · intro s hs
    have hrange : 0 ≤ env.OpenForWrite name ∧ env.OpenForWrite name < 20 := by omega
    have hne : env.OpenForWrite name ≠ -1 := by omega
    obtain ⟨s1, hs1, hv1⟩ := slot_of_mem hrange
    have hss : s1 = s := by
      apply Fin.ext
      have : (s1.val : Int) = (s.val : Int) := by rw [hv1, hs]
      exact_mod_cast this
    subst hss
    cases ht : fs.fileDescriptorTable s1 with
    | none =>
      refine ⟨⟨true, fs, [.OpenForWrite name]⟩, ?_, rfl, ht, fun _ _ => rfl, rfl⟩
      simp [FileSystem.Create, FileSystem.Close, FileSystem.load, hne, hs1, ht]
    | some h =>
      refine ⟨⟨true, ⟨Function.update fs.fileDescriptorTable s1 none⟩,
        [.OpenForWrite name, .DeleteOpenFile h]⟩, ?_, rfl, ?_, ?_, rfl⟩
      · simp [FileSystem.Create, FileSystem.Close, FileSystem.load, FileSystem.store, hne,
          hs1, ht]
      · simp
      · intro t htne
        simp [Function.update_noteq htne]
  · intro hne hrange
    simp [FileSystem.Create, FileSystem.Close, load_of_not_mem fs hrange, hne]

/-- C10, the code at the failing inputs.  `Create` hands the host descriptor to the
member `Close`, which takes it for a table index.  With host descriptor `20` the
table is indexed outside `0..19`.  With host descriptor `3` and slot `3` live,
`Create` returns `TRUE` after deleting the handle of slot `3` and emptying the slot.
With host descriptor `3` and slot `3` empty, `Create` returns `TRUE` and the table is
as before, but the host descriptor is never closed: the host open is the only
outside call. -/
theorem Create_closes_table_entry :
    FileSystem.new.Create (answering 20 0) "a" = .error (.outOfBounds 20) ∧
    (∃ r, onlyThree.Create (answering 3 0) "a" = .ok r ∧ r.ret = true ∧
      onlyThree.fileDescriptorTable 3 = some ⟨3⟩ ∧ r.fs.fileDescriptorTable 3 = none ∧
      r.calls = [.OpenForWrite "a", .DeleteOpenFile ⟨3⟩]) ∧
    FileSystem.new.Create (answering 3 0) "a" =
      .ok ⟨true, FileSystem.new, [.OpenForWrite "a"]⟩ :=
  ⟨rfl, ⟨_, rfl, rfl, rfl, rfl, rfl⟩, rfl⟩

/-- What a host would have to do for `Create` to disturb the table: after
construction, `Open("a", 0)` answered with descriptor `3` returns `3` and makes slot
`3` live; if the host then answered `Create("b")` with descriptor `3` again, while id
`3` is still assigned, `Create` would return `TRUE` and leave slot `3` empty. -/
theorem Create_empties_live_slot :
    (run openThenCreate).map (fun e => e.op) = [.Open "a" 0, .Create "b"] ∧
    (∃ e r, (run openThenCreate)[0]? = some e ∧ e.before.fileDescriptorTable 3 = none ∧
      e.result = .ok r ∧ r.ret = .int 3 ∧ r.fs.fileDescriptorTable 3 = some ⟨3⟩) ∧
    ∃ e r, (run openThenCreate)[1]? = some e ∧ e.op = .Create "b" ∧
      e.before.fileDescriptorTable 3 = some ⟨3⟩ ∧ e.result = .ok r ∧
      r.ret = .bool true ∧ r.fs.fileDescriptorTable 3 = none :=
  ⟨rfl, ⟨_, _, rfl, rfl, rfl, rfl, rfl⟩, ⟨_, _, rfl, rfl, rfl, rfl, rfl, rfl⟩⟩

/-! ### Runs -/

theorem runFrom_cons (ids : List Int) (fs : FileSystem) (env : Env) (op : Op)
    (rest : List (Env × Op)) :
    runFrom ids fs ((env, op) :: rest) =
      ⟨ids, fs, env, op, fs.call env op⟩ ::
        (match fs.call env op with
          | .error _ => []
          | .ok r => runFrom (assignedAfter ids op r.ret) r.fs rest) := by
  cases h : fs.call env op <;> simp [runFrom, h]

theorem liveCount_le (fs : FileSystem) : fs.liveCount ≤ 20 := by
  unfold FileSystem.liveCount
  calc (Finset.univ.filter (fun s : Fin 20 => fs.fileDescriptorTable s ≠ none)).card
      ≤ (Finset.univ : Finset (Fin 20)).card := Finset.card_le_card (Finset.filter_subset _ _)
    _ = 20 := by simp

theorem full_of_liveCount (fs : FileSystem) (h : 20 ≤ fs.liveCount) : fs.Full := by
  intro s
  have hsub : Finset.univ.filter (fun s : Fin 20 => fs.fileDescriptorTable s ≠ none) =
      Finset.univ := by
    apply Finset.eq_of_subset_of_card_le (Finset.filter_subset _ _)
    simpa [FileSystem.liveCount] using h
  have hs : s ∈ Finset.univ.filter (fun s : Fin 20 => fs.fileDescriptorTable s ≠ none) := by
    rw [hsub]
    exact Finset.mem_univ s
  exact (Finset.mem_filter.mp hs).2

theorem liveCount_update (fs : FileSystem) (s : Fin 20) (h : OpenFile)
    (hs : fs.fileDescriptorTable s = none) :
    FileSystem.liveCount ⟨Function.update fs.fileDescriptorTable s (some h)⟩ =
      fs.liveCount + 1 := by
  unfold FileSystem.liveCount
  have hset : Finset.univ.filter
        (fun t : Fin 20 => Function.update fs.fileDescriptorTable s (some h) t ≠ none) =
      insert s (Finset.univ.filter (fun t : Fin 20 => fs.fileDescriptorTable t ≠ none)) := by
    ext t
    by_cases hts : t = s
    · subst hts
      simp
    · simp [Function.update_noteq hts, hts]
  rw [hset, Finset.card_insert_of_not_mem]
  simp [hs]

/-- What `Open(name, _)` does when the host answer respects the table. -/
theorem Open_of_fresh (env : Env) (fs : FileSystem) (name : CharPtr) (unused : Int)
    (hfresh : hostFresh fs (env.OpenForReadWrite name false) = true) :
    ∃ r, fs.Open env name unused = .ok r ∧ (fs.Full → r.ret = -1) ∧
      ((r.ret = -1 ∧ r.fs = fs ∧
          ((env.OpenForReadWrite name false = -1 ∧
              r.calls = [.OpenForReadWrite name false]) ∨
            (20 ≤ env.OpenForReadWrite name false ∧
              r.calls = [.OpenForReadWrite name false, .Cerr "fd >= 20!!!",
                .GlobalClose (env.OpenForReadWrite name false)]))) ∨
        (0 ≤ r.ret ∧ r.fs.liveCount = fs.liveCount + 1)) := by
  by_cases h1 : env.OpenForReadWrite name false = -1
  · exact ⟨_, Open_of_failed env fs name unused h1, fun _ => rfl,
      Or.inl ⟨rfl, rfl, Or.inl ⟨h1, rfl⟩⟩⟩
  · by_cases h2 : 20 ≤ env.OpenForReadWrite name false
    · exact ⟨_, Open_of_large env fs name unused h2, fun _ => rfl,
        Or.inl ⟨rfl, rfl, Or.inr ⟨h2, rfl⟩⟩⟩
    · have h0 : 0 ≤ env.OpenForReadWrite name false := by
        simp [hostFresh, h1] at hfresh
        exact hfresh.1
      obtain ⟨s, hs, _, hopen⟩ := Open_of_small env fs name unused ⟨h0, by omega⟩
      have hnone : fs.fileDescriptorTable s = none := by
        simp [hostFresh, h1, hs] at hfresh
        exact hfresh.2
      refine ⟨_, hopen, ?_, Or.inr ⟨h0, liveCount_update fs s _ hnone⟩⟩
      intro hfull
      exact absurd hnone (hfull s)

theorem run_of_opens (n : Nat) : ∀ (calls : List (Env × Op)) (ids : List Int)
    (fs : FileSystem), calls.length = n + 1 →
    (∀ e ∈ runFrom ids fs calls, e.freshOpen = true) →
    (∀ e ∈ (runFrom ids fs calls).take n, e.returnedId = true) →
    20 ≤ fs.liveCount + n →
    ∃ e r, (runFrom ids fs calls)[n]? = some e ∧ e.result = .ok r ∧ r.ret = .int (-1) := by
  induction n with
  | zero =>
    intro calls ids fs hlen hfresh _ hcount
    obtain ⟨⟨env, op⟩, rfl⟩ := List.length_eq_one.mp hlen
    rw [runFrom_cons] at hfresh ⊢
    have h0 := hfresh _ (List.mem_cons_self _ _)
    cases op with
    | Open name unused =>
      simp only [Event.freshOpen] at h0
      obtain ⟨r, hopen, hfull, _⟩ := Open_of_fresh env fs name unused h0
      have hret := hfull (full_of_liveCount fs (by omega))
      refine ⟨_, ⟨.int r.ret, r.fs, r.calls⟩, List.getElem?_cons_zero, ?_, ?_⟩
      · simp [FileSystem.call, hopen]
      · simp [hret]
    | _ => simp [Event.freshOpen] at h0
  | succ n ih =>
    intro calls ids fs hlen hfresh hfirst hcount
    cases calls with
    | nil => simp at hlen
    | cons c rest =>
      obtain ⟨env, op⟩ := c
      rw [runFrom_cons] at hfresh hfirst ⊢
      have h0 := hfresh _ (List.mem_cons_self _ _)
      have hid := hfirst _ (by rw [List.take_succ_cons]; exact List.mem_cons_self _ _)
      cases op with
      | Open name unused =>
        simp only [Event.freshOpen] at h0
        obtain ⟨r, hopen, _, hcases⟩ := Open_of_fresh env fs name unused h0
        have hcall : fs.call env (.Open name unused) = .ok ⟨.int r.ret, r.fs, r.calls⟩ := by
          simp [FileSystem.call, hopen]
        simp only [hcall] at hfresh hfirst hid ⊢
        have hlive : r.fs.liveCount = fs.liveCount + 1 := by
          rcases hcases with ⟨hret, _⟩ | ⟨_, hlive⟩
          · simp [Event.returnedId, hret] at hid
          · exact hlive
        have hrest := ih rest (assignedAfter ids (.Open name unused) (.int r.ret)) r.fs
          (by simpa using hlen)
          (fun e he => hfresh e (List.mem_cons_of_mem _ he))
          (fun e he => hfirst e (by
            rw [List.take_succ_cons]
            exact List.mem_cons_of_mem _ he))
          (by omega)
        simpa using hrest
      | _ => simp [Event.freshOpen] at h0

/-- C3, as the claim states it, fails: with all 20 slots live and the host open
answering descriptor `5`, `Open` does not return `-1`.  It returns `5`, closes
nothing and stores a new handle in slot `5`. -/
theorem Open_full_table_counterexample :
    allLive.Full ∧
    (¬ ∃ r, allLive.Open (answering 5 0) "a" 0 = .ok r ∧ r.ret = -1) ∧
    ∃ r, allLive.Open (answering 5 0) "a" 0 = .ok r ∧ r.ret = 5 ∧
      r.calls = [.OpenForReadWrite "a" false, .NewOpenFile 5] := by
  refine ⟨fun s => by simp [allLive], ?_, ⟨_, rfl, rfl, rfl⟩⟩
  rintro ⟨r, hr, hret⟩
  have hopen : allLive.Open (answering 5 0) "a" 0 =
      .ok ⟨5, ⟨Function.update allLive.fileDescriptorTable 5 (some ⟨5⟩)⟩,
        [.OpenForReadWrite "a" false, .NewOpenFile 5]⟩ := rfl
  rw [hopen] at hr
  cases hr
  simp at hret

/-- C3, amended: `Open` never looks at the table, so the claim holds for the host
answers that respect the table (`-1`, or a non-negative descriptor that is not the
index of a live slot).  When all 20 slots hold live handles, `Open(name, _)` then
returns `-1` and leaves the table as it was; if the host open had succeeded, its
descriptor is `20` or more and `Open` closes that descriptor.  In particular, in 21
`Open` calls in a row from any table, all with such host answers, if each of the
first 20 returns an id then the 21st returns `-1`. -/
theorem Open_on_full_table :
    (∀ (env : Env) (fs : FileSystem) (name : CharPtr) (unused : Int),
      fs.Full → hostFresh fs (env.OpenForReadWrite name false) = true →
      ∃ calls, fs.Open env name unused = .ok ⟨-1, fs, calls⟩ ∧
        ((env.OpenForReadWrite name false = -1 ∧ calls = [.OpenForReadWrite name false]) ∨
          (20 ≤ env.OpenForReadWrite name false ∧
            calls = [.OpenForReadWrite name false, .Cerr "fd >= 20!!!",
              .GlobalClose (env.OpenForReadWrite name false)]))) ∧
    (∀ (fs : FileSystem) (calls : List (Env × Op)), calls.length = 21 →
      (∀ e ∈ runFrom [] fs calls, e.freshOpen = true) →
      (∀ e ∈ (runFrom [] fs calls).take 20, e.returnedId = true) →
      ∃ e r, (runFrom [] fs calls)[20]? = some e ∧ e.result = .ok r ∧ r.ret = .int (-1)) := by
  constructor
  · intro env fs name unused hfull hfresh
    obtain ⟨r, hopen, hret, hcases⟩ := Open_of_fresh env fs name unused hfresh
    rcases hcases with ⟨h1, hfs, hcalls⟩ | ⟨h0, _⟩
    · refine ⟨r.calls, ?_, hcalls⟩
      rw [hopen]
      obtain ⟨ret, fs1, calls⟩ := r
      simp only at h1 hfs
      rw [h1, hfs]
    · have := hret hfull
      omega
  · intro fs calls hlen hfresh hfirst
    exact run_of_opens 20 calls [] fs hlen hfresh hfirst (by omega)

/-- C3, amended, on the full table with host descriptor `20`, and on the 21 opens that
the host answers with `0, 1, ..., 20` after construction. -/
theorem Open_on_full_table_witness :
    (allLive.Full ∧ hostFresh allLive ((answering 20 0).OpenForReadWrite "a" false) = true ∧
      ∃ calls, allLive.Open (answering 20 0) "a" 0 = .ok ⟨-1, allLive, calls⟩ ∧
        (((answering 20 0).OpenForReadWrite "a" false = -1 ∧
            calls = [.OpenForReadWrite "a" false]) ∨
          (20 ≤ (answering 20 0).OpenForReadWrite "a" false ∧
            calls = [.OpenForReadWrite "a" false, .Cerr "fd >= 20!!!",
              .GlobalClose ((answering 20 0).OpenForReadWrite "a" false)]))) ∧
    (twentyOneOpens.length = 21 ∧
      (∀ e ∈ runFrom [] FileSystem.new twentyOneOpens, e.freshOpen = true) ∧
      (∀ e ∈ (runFrom [] FileSystem.new twentyOneOpens).take 20, e.returnedId = true) ∧
      ∃ e r, (runFrom [] FileSystem.new twentyOneOpens)[20]? = some e ∧ e.result = .ok r ∧
        r.ret = .int (-1)) :=
  ⟨⟨fun s => by simp [allLive], by decide,
      Open_on_full_table.1 (answering 20 0) allLive "a" 0 (fun s => by simp [allLive])
        (by decide)⟩,
    ⟨by decide, by decide, by decide,
      Open_on_full_table.2 FileSystem.new twentyOneOpens (by decide) (by decide) (by decide)⟩⟩

/-! ### Ids that are still assigned -/

theorem Open_ok_cases (env : Env) (fs : FileSystem) (name : CharPtr) (unused : Int)
    (r : Ret Int) (h : fs.Open env name unused = .ok r) :
    (r.ret = -1 ∧ r.fs = fs) ∨
      ∃ s : Fin 20, slot (env.OpenForReadWrite name false) = some s ∧
        r.ret = env.OpenForReadWrite name false ∧
        r.fs = ⟨Function.update fs.fileDescriptorTable s
          (some ⟨env.OpenForReadWrite name false⟩)⟩ := by
  by_cases h1 : env.OpenForReadWrite name false = -1
  · rw [Open_of_failed env fs name unused h1] at h
    cases h
    exact Or.inl ⟨rfl, rfl⟩
  · by_cases h2 : 20 ≤ env.OpenForReadWrite name false
    · rw [Open_of_large env fs name unused h2] at h
      cases h
      exact Or.inl ⟨rfl, rfl⟩
    · cases hs : slot (env.OpenForReadWrite name false) with
      | none => simp [FileSystem.Open, FileSystem.store, h1, h2, hs] at h
      | some s =>
        simp [FileSystem.Open, FileSystem.store, h1, h2, hs] at h
        subst h
        exact Or.inr ⟨s, rfl, rfl, rfl⟩

theorem Close_ok_cases (fs : FileSystem) (fileid : Int) (r : Ret Int)
    (h : fs.Close fileid = .ok r) :
    (r.ret = 0 ∧ r.fs = fs) ∨
      ∃ s : Fin 20, slot fileid = some s ∧ r.ret = 1 ∧
        r.fs = ⟨Function.update fs.fileDescriptorTable s none⟩ := by
  cases hs : slot fileid with
  | none => simp [FileSystem.Close, FileSystem.load, hs] at h
  | some s =>
    cases ht : fs.fileDescriptorTable s with
    | none =>
      simp [FileSystem.Close, FileSystem.load, hs, ht] at h
      subst h
      exact Or.inl ⟨rfl, rfl⟩
    | some p =>
      simp [FileSystem.Close, FileSystem.load, FileSystem.store, hs, ht] at h
      subst h
      exact Or.inr ⟨s, rfl, rfl, rfl⟩

/-- A call that returns keeps every live slot among the assigned ids. -/
theorem call_keeps_live_assigned (env : Env) (fs : FileSystem) (op : Op) (r : Ret Val)
    (ids : List Int)
    (hinv : ∀ s : Fin 20, fs.fileDescriptorTable s ≠ none → (s.val : Int) ∈ ids)
    (hcall : fs.call env op = .ok r) :
    ∀ s : Fin 20, r.fs.fileDescriptorTable s ≠ none →
      (s.val : Int) ∈ assignedAfter ids op r.ret := by
  cases op with
  | Create name =>
    simp only [FileSystem.call, FileSystem.Create] at hcall
    split at hcall
    · cases hcall
    · rename_i r1 hr1
      cases hcall
      simp only [assignedAfter]
      split at hr1
      · cases hr1
        exact hinv
      · split at hr1
        · cases hr1
        · rename_i r2 hr2
          cases hr1
          rcases Close_ok_cases fs _ r2 hr2 with ⟨_, hfs⟩ | ⟨s, _, _, hfs⟩
          · rw [hfs]
            exact hinv
          · rw [hfs]
            intro t ht
            by_cases hts : t = s
            · subst hts
              simp at ht
            · simp only [Function.update_noteq hts] at ht
              exact hinv t ht
  | OpenPtr name =>
    simp only [FileSystem.call, FileSystem.OpenPtr] at hcall
    split at hcall
    · cases hcall
    · rename_i r1 hr1
      cases hcall
      simp only [assignedAfter]
      split at hr1 <;> (cases hr1; exact hinv)
  | Open name unused =>
    simp only [FileSystem.call] at hcall
    split at hcall
    · cases hcall
    · rename_i r1 hr1
      cases hcall
      simp only [assignedAfter]
      rcases Open_ok_cases env fs name unused r1 hr1 with ⟨hret, hfs⟩ | ⟨s, hs, hret, hfs⟩
      · rw [hfs, hret]
        simpa using hinv
      · have hv := slot_val hs
        have h0 : 0 ≤ r1.ret := by
          rw [hret, ← hv]
          exact Int.natCast_nonneg _
        rw [hfs]
        simp only [h0, if_true]
        intro t ht
        by_cases hts : t = s
        · subst hts
          rw [hret, ← hv]
          exact List.mem_cons_self _ _
        · simp only [Function.update_noteq hts] at ht
          exact List.mem_cons_of_mem _ (hinv t ht)
  | Write buffer size fileid =>
    simp only [FileSystem.call, FileSystem.Write] at hcall
    split at hcall
    · cases hcall
    · rename_i r1 hr1
      cases hcall
      simp only [assignedAfter]
      split at hr1
      · cases hr1
      · cases hr1
        exact hinv
      · cases hr1
        exact hinv
  | Read buffer size fileid =>
    simp only [FileSystem.call, FileSystem.Read] at hcall
    split at hcall
    · cases hcall
    · rename_i r1 hr1
      cases hcall
      simp only [assignedAfter]
      split at hr1
      · cases hr1
      · cases hr1
        exact hinv
      · cases hr1
        exact hinv
  | Close fileid =>
    simp only [FileSystem.call] at hcall
    split at hcall
    · cases hcall
    · rename_i r1 hr1
      cases hcall
      simp only [assignedAfter]
      rcases Close_ok_cases fs fileid r1 hr1 with ⟨hret, hfs⟩ | ⟨s, hs, hret, hfs⟩
      · rw [hfs, hret]
        simpa using hinv
      · have hv := slot_val hs
        rw [hfs, hret]
        simp only [if_true]
        intro t ht
        by_cases hts : t = s
        · subst hts
          simp at ht
        · simp only [Function.update_noteq hts] at ht
          refine List.mem_filter.mpr ⟨hinv t ht, ?_⟩
          have hne : (t.val : Int) ≠ fileid := by
            intro heq
            apply hts
            apply Fin.ext
            have : (t.val : Int) = (s.val : Int) := by rw [heq, hv]
            exact_mod_cast this
          simpa using hne
  | Remove name =>
    simp only [FileSystem.call, FileSystem.Remove] at hcall
    cases hcall
    simpa [assignedAfter] using hinv

/-- In a run, before every call, every live slot is an assigned id and the recorded
result is the result of the call on the recorded object. -/
theorem live_assigned_in_run (calls : List (Env × Op)) : ∀ (ids : List Int)
    (fs : FileSystem),
    (∀ s : Fin 20, fs.fileDescriptorTable s ≠ none → (s.val : Int) ∈ ids) →
    ∀ e ∈ runFrom ids fs calls,
      e.result = e.before.call e.env e.op ∧
      ∀ s : Fin 20, e.before.fileDescriptorTable s ≠ none → (s.val : Int) ∈ e.assigned := by
  induction calls with
  | nil =>
    intro ids fs _ e he
    simp [runFrom] at he
  | cons c rest ih =>
    intro ids fs hinv e he
    obtain ⟨env, op⟩ := c
    rw [runFrom_cons] at he
    rcases List.mem_cons.mp he with rfl | he
    · exact ⟨rfl, hinv⟩
    · cases hcall : fs.call env op with
      | error f => simp [hcall] at he
      | ok r =>
        simp only [hcall] at he
        exact ih _ r.fs (call_keeps_live_assigned env fs op r ids hinv hcall) e he

/-- C6, as the claim states it, fails: with slot `3` live and the host open answering
descriptor `3`, `Open` returns the id `3`, whose slot held a live handle before the
call; the handle is replaced without being deleted. -/
theorem Open_reuse_counterexample :
    (¬ ∀ r, onlyThree.Open (answering 3 0) "a" 0 = .ok r → 0 ≤ r.ret →
        onlyThree.load r.ret = .ok none) ∧
    ∃ r, onlyThree.Open (answering 3 0) "a" 0 = .ok r ∧ r.ret = 3 ∧
      onlyThree.load r.ret = .ok (some ⟨3⟩) ∧
      r.calls = [.OpenForReadWrite "a" false, .NewOpenFile 3] := by
  refine ⟨?_, ⟨_, rfl, rfl, rfl, rfl⟩⟩
  intro h
  have hload := h ⟨3, ⟨Function.update onlyThree.fileDescriptorTable 3 (some ⟨3⟩)⟩,
    [.OpenForReadWrite "a" false, .NewOpenFile 3]⟩ rfl (by decide)
  have hlive : onlyThree.load 3 = .ok (some ⟨3⟩) := rfl
  simp only at hload
  rw [hlive] at hload
  cases hload

/-- C6, amended: `Open` takes the host's descriptor for the id without looking at the
table, so ids stay unique only as far as the host's descriptors do.  In every run from
construction in which the host never answers an `Open(name, _)` call with an id that
is still assigned (returned by an earlier `Open`, not given back since by a `Close`
that returned `1`), every `Open(name, _)` call that returns an id `>= 0` returns one
whose slot held no live handle before the call. -/
theorem Open_id_was_free (calls : List (Env × Op))
    (hhost : ∀ e ∈ run calls, e.reissues = false) :
    ∀ e ∈ run calls, ∀ name unused r id, e.op = .Open name unused → e.result = .ok r →
      r.ret = .int id → 0 ≤ id → e.before.load id = .ok none := by
  intro e he name unused r id hop hres hret hid
  obtain ⟨hresult, hinv⟩ := live_assigned_in_run calls [] FileSystem.new
    (fun s hs => absurd rfl hs) e he
  have hnot := hhost e he
  rw [hop] at hresult
  simp only [Event.reissues, hop, decide_eq_false_iff_not] at hnot
  rw [hres] at hresult
  simp only [FileSystem.call] at hresult
  split at hresult
  · cases hresult
  · rename_i r1 hr1
    cases hresult
    simp only [Val.int.injEq] at hret
    rcases Open_ok_cases e.env e.before name unused r1 hr1 with ⟨h1, _⟩ | ⟨s, hs, h1, _⟩
    · omega
    · have hv := slot_val hs
      have hidfd : id = e.env.OpenForReadWrite name false := by rw [← hret, h1]
      rw [hidfd]
      simp only [FileSystem.load, hs]
      congr 1
      by_contra hlive
      apply hnot
      rw [← hv]
      exact hinv s hlive

/-- C6, amended, on the run `Open`, `Close`, `Open`, each open answered with `3`. -/
theorem Open_id_was_free_witness :
    (∀ e ∈ run openCloseOpen, e.reissues = false) ∧
    ∀ e ∈ run openCloseOpen, ∀ name unused r id, e.op = .Open name unused →
      e.result = .ok r → r.ret = .int id → 0 ≤ id → e.before.load id = .ok none :=
  ⟨by decide, Open_id_was_free openCloseOpen (by decide)⟩

/-! ### The lifecycle of a slot -/

end Filesys
